import Mathlib

/-!
# Verification of the nicotine window-cycling core

Shallow embedding of the Rust sources `src/wayland_backends.rs`,
`src/config.rs` and `src/main.rs` (the direct-mode cycling arms).
Strings are modelled as `List Char`; `u32` values as `Nat` (with explicit
`% 2^32` truncation and explicit checked subtraction where the Rust
arithmetic can overflow); external command execution is modelled by an
environment function recording which calls were issued.
-/

namespace Nicotine

/-- Abbreviation turning a string literal into the character list we use
as the string model. -/
def cs (s : String) : List Char := s.data

/-- The literal `"EVE - "` used by every backend's title filter. -/
def evePfx : List Char := cs "EVE - "

/-- The literal `"Launcher"` excluded by every backend's title filter. -/
def launcherStr : List Char := cs "Launcher"

/-- Model of Rust `str::contains(pat)`: `pat` occurs as a contiguous
substring of `s`. -/
def hasSubstr (pat : List Char) : List Char → Bool
  | [] => pat.isEmpty
  | c :: rest => pat.isPrefixOf (c :: rest) || hasSubstr pat rest

/-- Fuel-driven worker for `trimEve` (the fuel only bounds the number of
strips; `s.length` is always enough because each strip removes six
characters). -/
def trimEveAux : Nat → List Char → List Char
  | 0, s => s
  | fuel + 1, s =>
    if evePfx.isPrefixOf s then trimEveAux fuel (s.drop evePfx.length) else s

/-- Model of Rust `title.trim_start_matches("EVE - ")`: repeatedly remove
the leading occurrence of `"EVE - "` while the string still starts with
it. -/
def trimEve (s : List Char) : List Char := trimEveAux s.length s

/-- The shared title filter of every backend: the title starts with
`"EVE - "` and does not contain `"Launcher"`. -/
def titleQualifies (t : List Char) : Bool :=
  evePfx.isPrefixOf t && !(hasSubstr launcherStr t)

/-! ## Hexadecimal / decimal id codec

`u32::from_str_radix(s, 16)`, `str::parse::<u32>()` and the `format!`
encodings `"0x{:08x}"` (KWin) and `"0x{:x}"` (Hyprland).  The parse
models cover unsigned, sign-free numerals (window ids and addresses never
carry a sign). -/

/-- Value of one hexadecimal digit character (`0`-`9`, `a`-`f`,
`A`-`F`), computed from its code point. -/
def hexCharVal (c : Char) : Option Nat :=
  let n := c.toNat
  if 48 ≤ n ∧ n ≤ 57 then some (n - 48)
  else if 97 ≤ n ∧ n ≤ 102 then some (n - 87)
  else if 65 ≤ n ∧ n ≤ 70 then some (n - 55)
  else none

/-- Value of one decimal digit character, computed from its code
point. -/
def decCharVal (c : Char) : Option Nat :=
  let n := c.toNat
  if 48 ≤ n ∧ n ≤ 57 then some (n - 48) else none

/-- Accumulating base-`b` parse over a digit-valuation; `none` as soon as
a character is not a digit. -/
def parseRadixAux (digitVal : Char → Option Nat) (b : Nat) :
    Nat → List Char → Option Nat
  | acc, [] => some acc
  | acc, c :: rest =>
    match digitVal c with
    | some d => parseRadixAux digitVal b (b * acc + d) rest
    | none => none

/-- Model of `u32::from_str_radix(s, 16)` as an `Option`: `none` on the
empty string, on any non-hex character, and on overflow past
`u32::MAX`. -/
def fromStrRadix16U32 (s : List Char) : Option Nat :=
  if s.isEmpty then none
  else
    match parseRadixAux hexCharVal 16 0 s with
    | some v => if v < 2 ^ 32 then some v else none
    | none => none

/-- Model of `s.parse::<u32>()` as an `Option` (sign-free numerals):
`none` on the empty string, on any non-decimal character, and on
overflow past `u32::MAX`. -/
def parseU32 (s : List Char) : Option Nat :=
  if s.isEmpty then none
  else
    match parseRadixAux decCharVal 10 0 s with
    | some v => if v < 2 ^ 32 then some v else none
    | none => none

/-- Lowercase hexadecimal digit character for a value below 16,
computed from the code point (`0`-`9` then `a`-`f`). -/
def hexDigitChar (d : Nat) : Char :=
  if d < 10 then Char.ofNat (48 + d) else Char.ofNat (87 + d)

/-- Little-endian hexadecimal digit characters of `n`, with structural
fuel (fuel `n` always suffices since the argument at least halves). -/
def hexDigitsAux : Nat → Nat → List Char
  | 0, _ => []
  | _, 0 => []
  | fuel + 1, n + 1 => hexDigitChar ((n + 1) % 16) :: hexDigitsAux fuel ((n + 1) / 16)

/-- Big-endian hexadecimal rendering of `n`, as produced by Rust
`format!("{:x}", n)` (so `0` renders as `"0"`). -/
def natToHex (n : Nat) : List Char :=
  if n = 0 then ['0'] else (hexDigitsAux n n).reverse

/-- `format!("0x{:08x}", id)`: `0x`, then the hex digits left-padded with
zeros to width at least 8 (KWin's id encoding for wmctrl). -/
def kwinEncodeId (n : Nat) : List Char :=
  cs "0x" ++ List.replicate (8 - (natToHex n).length) '0' ++ natToHex n

/-- `format!("0x{:x}", id)`: `0x` then the bare-width hex digits
(Hyprland's address encoding for hyprctl). -/
def hyprEncodeAddr (n : Nat) : List Char :=
  cs "0x" ++ natToHex n

/-- KWin's id decode (`wayland_backends.rs` lines 61-65): strip a leading
`0x` and parse hexadecimal, otherwise parse decimal; any failure resolves
to the reserved id 0 (`unwrap_or(0)`). -/
def kwinParseId (s : List Char) : Nat :=
  if (cs "0x").isPrefixOf s then
    (fromStrRadix16U32 (s.drop 2)).getD 0
  else
    (parseU32 s).getD 0

/-- Hyprland's address decode (`wayland_backends.rs` lines 386-390):
strip a leading `0x` and parse hexadecimal with failure resolving to 0;
a missing `0x` forces 0 directly. -/
def hyprParseAddr (s : List Char) : Nat :=
  if (cs "0x").isPrefixOf s then
    (fromStrRadix16U32 (s.drop 2)).getD 0
  else
    0

/-! ## Data model -/

/-- `EveWindow` from `window_manager.rs`: canonical 32-bit id plus the
display title with the `"EVE - "` prefix stripped. -/
structure EveWindow where
  id : Nat
  title : List Char
  deriving DecidableEq, Repr

/-- The geometry fields of `Config` (`config.rs`); all `u32` in the
source, modelled as `Nat`. -/
structure Config where
  display_width : Nat
  display_height : Nat
  panel_height : Nat
  eve_width : Nat
  eve_height : Nat
  deriving DecidableEq, Repr

/-- Checked `u32` subtraction: `none` models the overflow panic of
`a - b` when `b > a`. -/
def checkedSub (a b : Nat) : Option Nat :=
  if b ≤ a then some (a - b) else none

namespace Config

/-- `Config::eve_x` (`config.rs` lines 109-111): `(display_width -
eve_width) / 2`; `none` models the subtraction panic. -/
def eve_x (c : Config) : Option Nat :=
  (checkedSub c.display_width c.eve_width).map (· / 2)

/-- `Config::eve_height_adjusted` (`config.rs` lines 117-119):
`display_height - panel_height`; `none` models the subtraction panic. -/
def eve_height_adjusted (c : Config) : Option Nat :=
  checkedSub c.display_height c.panel_height

end Config

/-- Concrete configuration satisfying the geometry precondition, used
only by witnesses. -/
def cfgOk : Config := ⟨1920, 1080, 40, 1000, 1080⟩

/-- Concrete configuration violating the geometry precondition
(`eve_width > display_width`), used only by witnesses. -/
def cfgWide : Config := ⟨100, 100, 0, 200, 100⟩

/-! ## KWin backend: window enumeration

`KWinManager::get_eve_windows` starting from the `(window_id, title)`
pairs produced by `get_all_windows` (the wmctrl line splitting itself is
outside every claim). -/

/-- `KWinManager::get_eve_windows` (`wayland_backends.rs` lines 54-77):
filter by title, decode the id (failures resolve to 0), and keep the
window only when the id is nonzero, storing the trimmed title. -/
def kwinGetEveWindows : List (List Char × List Char) → List EveWindow
  | [] => []
  | (idStr, title) :: rest =>
    if titleQualifies title then
      let id := kwinParseId idStr
      if id ≠ 0 then
        { id := id, title := trimEve title } :: kwinGetEveWindows rest
      else
        kwinGetEveWindows rest
    else
      kwinGetEveWindows rest

example :
    kwinGetEveWindows
      [(cs "0x06e00008", cs "EVE - Homeless Addict"),
       (cs "0x06e00009", cs "EVE - Launcher"),
       (cs "0x06e0000a", cs "Firefox")] =
      [{ id := 0x06e00008, title := cs "Homeless Addict" }] := by decide

/-! ## JSON model

`serde_json::Value` restricted to what the Sway and Hyprland backends
inspect.  Numbers are modelled as unsigned integers plus a marker
constructor `numOther` for numbers not representable as `u64`
(negative or floating), on which `as_u64` fails. -/

/-- Model of `serde_json::Value`. -/
inductive Json where
  | null
  | bool (b : Bool)
  | num (n : Nat)
  | numOther
  | str (s : List Char)
  | arr (xs : List Json)
  | obj (fields : List (List Char × Json))

/-- Key lookup in an object's field list (objects produced by serde have
unique keys, so first-match lookup is exact). -/
def lookupField : List (List Char × Json) → List Char → Option Json
  | [], _ => none
  | (k', v) :: rest, k => if k' = k then some v else lookupField rest k

namespace Json

/-- `Value::get(key)`: field lookup on objects, `None` elsewhere. -/
def get (j : Json) (k : List Char) : Option Json :=
  match j with
  | .obj fs => lookupField fs k
  | _ => none

/-- `Value::as_str`. -/
def asStr : Json → Option (List Char)
  | .str s => some s
  | _ => none

/-- `Value::as_u64` (model: any `num` is u64-representable, `numOther`
is not). -/
def asU64 : Json → Option Nat
  | .num n => some n
  | _ => none

/-- `Value::as_bool`. -/
def asBool : Json → Option Bool
  | .bool b => some b
  | _ => none

/-- `Value::as_array`. -/
def asArr : Json → Option (List Json)
  | .arr xs => some xs
  | _ => none

/-- `Value::is_null`. -/
def isNull : Json → Bool
  | .null => true
  | _ => false

theorem sizeOf_lookupField {fs : List (List Char × Json)} {k : List Char}
    {v : Json} (h : lookupField fs k = some v) : sizeOf v < 1 + sizeOf fs := by
  induction fs with
  | nil => simp [lookupField] at h
  | cons p rest ih =>
    obtain ⟨k', v'⟩ := p
    simp only [lookupField] at h
    split at h
    · cases h
      simp only [List.cons.sizeOf_spec, Prod.mk.sizeOf_spec]
      omega
    · have := ih h
      simp only [List.cons.sizeOf_spec]
      omega

theorem sizeOf_get {j : Json} {k : List Char} {v : Json}
    (h : j.get k = some v) : sizeOf v < sizeOf j := by
  cases j <;> simp only [get] at h <;> try exact Option.noConfusion h
  case obj fs =>
    have := sizeOf_lookupField h
    simp only [Json.obj.sizeOf_spec]
    omega

theorem sizeOf_mem_arr {xs : List Json} {x : Json} (h : x ∈ xs) :
    sizeOf x < 1 + sizeOf xs := by
  have := List.sizeOf_lt_of_mem h
  omega

theorem sizeOf_get_arr_mem {j : Json} {k : List Char} {xs : List Json}
    {x : Json} (h : (j.get k).bind Json.asArr = some xs) (hx : x ∈ xs) :
    sizeOf x < sizeOf j := by
  cases hv : j.get k with
  | none => rw [hv] at h; simp [Option.bind] at h
  | some v =>
    rw [hv] at h
    cases v <;> simp [Option.bind, asArr] at h
    case arr ys =>
      cases h
      have h1 := sizeOf_get hv
      have h2 := List.sizeOf_lt_of_mem hx
      simp only [Json.arr.sizeOf_spec] at h1
      omega

end Json

/-- JSON field-name literals used by the Sway and Hyprland backends. -/
def typeKey : List Char := cs "type"
def appIdKey : List Char := cs "app_id"
def windowPropsKey : List Char := cs "window_properties"
def nodesKey : List Char := cs "nodes"
def floatingNodesKey : List Char := cs "floating_nodes"
def nameKey : List Char := cs "name"
def idKey : List Char := cs "id"
def focusedKey : List Char := cs "focused"
def titleKey : List Char := cs "title"
def addressKey : List Char := cs "address"

/-- The collection test of `SwayManager::extract_windows`
(`wayland_backends.rs` lines 201-213): type is `"con"` or
`"floating_con"`, and then the `if let` chain — an `app_id` field, when
present, must be non-null (a present-but-null `app_id` skips the
`window_properties` branch entirely); only when `app_id` is absent is a
non-null `window_properties` field consulted. -/
def swayCollects (j : Json) : Bool :=
  match (j.get typeKey).bind Json.asStr with
  | some t =>
    if t = cs "con" || t = cs "floating_con" then
      match j.get appIdKey with
      | some appId => !appId.isNull
      | none =>
        match j.get windowPropsKey with
        | some wp => !wp.isNull
        | none => false
    else false
  | none => false

/-- The child list a recursion step of `SwayManager::extract_windows`
walks: the value of the given field when it is an array, nothing
otherwise (the Rust `if let Some(nodes) = node.get(..).and_then(as_array)`
guard). -/
def swayChildren (j : Json) (key : List Char) : List Json :=
  ((j.get key).bind Json.asArr).getD []

theorem sizeOf_swayChildren {j : Json} {key : List Char} {x : Json}
    (hx : x ∈ swayChildren j key) : sizeOf x < sizeOf j := by
  unfold swayChildren at hx
  cases h : (j.get key).bind Json.asArr with
  | none => rw [h] at hx; simp at hx
  | some xs =>
    rw [h] at hx
    exact Json.sizeOf_get_arr_mem h hx

/-- `SwayManager::extract_windows` (`wayland_backends.rs` lines 200-226):
collect the node itself when `swayCollects` holds, then recurse into the
`nodes` children, then into the `floating_nodes` children. -/
def swayExtract (j : Json) : List Json :=
  (if swayCollects j then [j] else []) ++
  ((swayChildren j nodesKey).attach.flatMap fun x => swayExtract x.val) ++
  ((swayChildren j floatingNodesKey).attach.flatMap fun x => swayExtract x.val)
termination_by sizeOf j
decreasing_by
  · exact sizeOf_swayChildren x.property
  · exact sizeOf_swayChildren x.property

/-- `SwayManager::get_window_title` (`wayland_backends.rs` lines
228-233). -/
def swayGetWindowTitle (j : Json) : Option (List Char) :=
  (j.get nameKey).bind Json.asStr

/-- `SwayManager::get_window_id` (`wayland_backends.rs` lines 235-237):
the JSON u64 id truncated by the `as u32` cast. -/
def swayGetWindowId (j : Json) : Option Nat :=
  ((j.get idKey).bind Json.asU64).map (· % 2 ^ 32)

/-- The filtering loop of `SwayManager::get_eve_windows`
(`wayland_backends.rs` lines 241-259), applied to the candidate list
produced by the tree walk. -/
def swayFilterEveWindows : List Json → List EveWindow
  | [] => []
  | w :: rest =>
    match swayGetWindowTitle w with
    | some title =>
      if titleQualifies title then
        match swayGetWindowId w with
        | some id => { id := id, title := trimEve title } :: swayFilterEveWindows rest
        | none => swayFilterEveWindows rest
      else swayFilterEveWindows rest
    | none => swayFilterEveWindows rest

/-- `SwayManager::get_eve_windows` on an already-parsed `get_tree`
document. -/
def swayGetEveWindows (tree : Json) : List EveWindow :=
  swayFilterEveWindows (swayExtract tree)

/-- `HyprlandManager::get_eve_windows` (`wayland_backends.rs` lines
376-402) on the already-parsed `hyprctl clients -j` array: filter by
title, decode the address (failures resolve to 0), and push the window
with no nonzero-id check. -/
def hyprGetEveWindows : List Json → List EveWindow
  | [] => []
  | w :: rest =>
    match (w.get titleKey).bind Json.asStr with
    | some title =>
      if titleQualifies title then
        match (w.get addressKey).bind Json.asStr with
        | some address =>
          { id := hyprParseAddr address, title := trimEve title } ::
            hyprGetEveWindows rest
        | none => hyprGetEveWindows rest
      else hyprGetEveWindows rest
    | none => hyprGetEveWindows rest

/-! ## Stacking

`stack_windows` for each backend.  Issuing an external command is
modelled by an environment `env : Nat → ExecRes` giving the outcome of
the k-th spawned command of the call: either the process could not be
spawned (`spawnErr`, the only case the Rust `?` on `Command::output()`
propagates) or it ran and exited with the given success flag (the three
`stack_windows` bodies never inspect the exit status).  A call returns
the list of commands issued, in order, plus a flag saying whether a
spawn error aborted the loop early; the surrounding `Option` models the
checked-subtraction panic computed before the loop. -/

/-- Outcome of spawning one external command. -/
inductive ExecRes where
  | spawnErr
  | ran (ok : Bool)
  deriving DecidableEq, Repr

/-- Model of Rust `v as i32` applied to a `u32` operand: values below
`2^31` are unchanged, larger ones wrap to their negative two's
complement. The leading `% 2^32` makes the model total on `Nat`; on a
`u32`-range operand it is the identity. -/
def i32WrapOfU32 (n : Nat) : Int :=
  if n % 2 ^ 32 < 2 ^ 31 then ((n % 2 ^ 32 : Nat) : Int)
  else ((n % 2 ^ 32 : Nat) : Int) - 2 ^ 32

/-- One issued window-manager control command.  Components the source
computes as `i32` (the `x`/`y` coordinates in all backends, and
additionally the width/height that Sway and Hyprland cast with `as i32`)
are carried as `Int`; KWin's width/height stay unsigned as in the
source. -/
inductive WmCall where
  | kwinMoveResize (hexId : List Char) (x y : Int) (w h : Nat)
  | swayFloatEnable (conId : Nat)
  | swayMove (conId : Nat) (x y : Int)
  | swayResize (conId : Nat) (w h : Int)
  | hyprToggleFloating (addr : List Char)
  | hyprMove (addr : List Char) (x y : Int)
  | hyprResize (addr : List Char) (w h : Int)
  deriving DecidableEq, Repr

/-- The per-window loop of `KWinManager::stack_windows`
(`wayland_backends.rs` lines 106-118): one wmctrl move-resize command
per window, `?` only on spawn failure. -/
def kwinStackLoop (env : Nat → ExecRes) (x y : Int) (w h : Nat) :
    Nat → List EveWindow → List WmCall × Bool
  | _, [] => ([], false)
  | k, win :: rest =>
    let c1 := WmCall.kwinMoveResize (kwinEncodeId win.id) x y w h
    match env k with
    | .spawnErr => ([c1], true)
    | .ran _ =>
      let (tr, ab) := kwinStackLoop env x y w h (k + 1) rest
      (c1 :: tr, ab)

/-- `KWinManager::stack_windows` (`wayland_backends.rs` lines 100-121):
compute the shared target rectangle (checked subtraction first, before
any command; the `x` coordinate is cast `as i32`, width and height stay
`u32`), then run the per-window loop. -/
def kwinStackWindows (env : Nat → ExecRes) (ws : List EveWindow)
    (c : Config) : Option (List WmCall × Bool) :=
  match checkedSub c.display_width c.eve_width,
        checkedSub c.display_height c.panel_height with
  | some dx, some dh =>
    some (kwinStackLoop env (i32WrapOfU32 (dx / 2)) 0 c.eve_width dh 0 ws)
  | _, _ => none

/-- The per-window loop of `SwayManager::stack_windows`
(`wayland_backends.rs` lines 283-299): floating enable, then move, then
resize, each `?` only on spawn failure. -/
def swayStackLoop (env : Nat → ExecRes) (x y w h : Int) :
    Nat → List EveWindow → List WmCall × Bool
  | _, [] => ([], false)
  | k, win :: rest =>
    let c1 := WmCall.swayFloatEnable win.id
    match env k with
    | .spawnErr => ([c1], true)
    | .ran _ =>
      let c2 := WmCall.swayMove win.id x y
      match env (k + 1) with
      | .spawnErr => ([c1, c2], true)
      | .ran _ =>
        let c3 := WmCall.swayResize win.id w h
        match env (k + 2) with
        | .spawnErr => ([c1, c2, c3], true)
        | .ran _ =>
          let (tr, ab) := swayStackLoop env x y w h (k + 3) rest
          (c1 :: c2 :: c3 :: tr, ab)

/-- `SwayManager::stack_windows` (`wayland_backends.rs` lines 277-302):
lines 278-281 cast `x`, the width `config.eve_width` and the height
`display_height - panel_height` with `as i32`, wrapping values of
`2^31` and above to negatives. -/
def swayStackWindows (env : Nat → ExecRes) (ws : List EveWindow)
    (c : Config) : Option (List WmCall × Bool) :=
  match checkedSub c.display_width c.eve_width,
        checkedSub c.display_height c.panel_height with
  | some dx, some dh =>
    some (swayStackLoop env (i32WrapOfU32 (dx / 2)) 0
      (i32WrapOfU32 c.eve_width) (i32WrapOfU32 dh) 0 ws)
  | _, _ => none

/-- The per-window loop of `HyprlandManager::stack_windows`
(`wayland_backends.rs` lines 431-454): togglefloating, then
movewindowpixel, then resizewindowpixel, each `?` only on spawn
failure. -/
def hyprStackLoop (env : Nat → ExecRes) (x y w h : Int) :
    Nat → List EveWindow → List WmCall × Bool
  | _, [] => ([], false)
  | k, win :: rest =>
    let a := hyprEncodeAddr win.id
    let c1 := WmCall.hyprToggleFloating a
    match env k with
    | .spawnErr => ([c1], true)
    | .ran _ =>
      let c2 := WmCall.hyprMove a x y
      match env (k + 1) with
      | .spawnErr => ([c1, c2], true)
      | .ran _ =>
        let c3 := WmCall.hyprResize a w h
        match env (k + 2) with
        | .spawnErr => ([c1, c2, c3], true)
        | .ran _ =>
          let (tr, ab) := hyprStackLoop env x y w h (k + 3) rest
          (c1 :: c2 :: c3 :: tr, ab)

/-- `HyprlandManager::stack_windows` (`wayland_backends.rs` lines
425-457): lines 426-429 cast `x`, the width `config.eve_width` and the
height `display_height - panel_height` with `as i32`, wrapping values
of `2^31` and above to negatives. -/
def hyprStackWindows (env : Nat → ExecRes) (ws : List EveWindow)
    (c : Config) : Option (List WmCall × Bool) :=
  match checkedSub c.display_width c.eve_width,
        checkedSub c.display_height c.panel_height with
  | some dx, some dh =>
    some (hyprStackLoop env (i32WrapOfU32 (dx / 2)) 0
      (i32WrapOfU32 c.eve_width) (i32WrapOfU32 dh) 0 ws)
  | _, _ => none

/-! ## Active-window queries -/

/-- A query error carrying no further structure (the Rust side carries
`anyhow` diagnostic text, irrelevant to the claims). -/
abbrev QueryErr := Unit

/-- Characters Rust `str::trim` removes from both ends. -/
def isRustWs (c : Char) : Bool :=
  c = ' ' || c = '\n' || c = '\t' || c = '\r'

/-- Model of Rust `str::trim`. -/
def rustTrim (s : List Char) : List Char :=
  ((s.dropWhile isRustWs).reverse.dropWhile isRustWs).reverse

/-- `KWinManager::get_active_window` (`wayland_backends.rs` lines
123-136) on the raw xdotool stdout: trim, then decimal-parse as `u32`;
a parse failure is an error (`context(...)?`). -/
def kwinGetActiveWindow (stdout : List Char) : Except QueryErr Nat :=
  match parseU32 (rustTrim stdout) with
  | some id => .ok id
  | none => .error ()

/-- The scanning loop of `SwayManager::get_active_window`
(`wayland_backends.rs` lines 307-317): first candidate whose `focused`
field is the boolean `true` and whose id is readable; a focused node
without a readable id is skipped and the scan continues. -/
def swayFindFocused : List Json → Option Nat
  | [] => none
  | w :: rest =>
    match (w.get focusedKey).bind Json.asBool with
    | some true =>
      match swayGetWindowId w with
      | some id => some id
      | none => swayFindFocused rest
    | _ => swayFindFocused rest

/-- `SwayManager::get_active_window` (`wayland_backends.rs` lines
304-318) on an already-parsed `get_tree` document: scan the extracted
candidates; bail with an error when no focused window is found. -/
def swayGetActiveWindow (tree : Json) : Except QueryErr Nat :=
  match swayFindFocused (swayExtract tree) with
  | some id => .ok id
  | none => .error ()

/-- `HyprlandManager::get_active_window` (`wayland_backends.rs` lines
459-479) on the already-parsed `hyprctl activewindow -j` document:
if an `address` string field is present, return `Ok` of its decode
(0 when the decode fails); bail with an error only when the field is
absent. -/
def hyprGetActiveWindow (j : Json) : Except QueryErr Nat :=
  match (j.get addressKey).bind Json.asStr with
  | some address => .ok (hyprParseAddr address)
  | none => .error ()

/-! ## Direct-mode cycling (`main.rs`)

The `cycle-forward` arm (`main.rs` lines 72-115) and the line-identical
`cycle-backward` arm (lines 117-160), modelled from the point where
daemon dispatch has already failed.  The environment supplies the
outcome of each external interaction; the result records the `Result`
returned by `main` together with the trace of actions performed after
the lock attempt. -/

/-- Direction of one cycle invocation. -/
inductive CycleDir where
  | forward
  | backward
  deriving DecidableEq, Repr

/-- Observable actions of one direct-mode invocation. -/
inductive DirectAct where
  | enumerate
  | getActive
  | cycleStep (dir : CycleDir)
  deriving DecidableEq, Repr

/-- Environment of one direct-mode invocation. -/
structure DirectEnv where
  /-- whether `OpenOptions::open` on the lock file succeeds -/
  openOk : Bool
  /-- the return value of `libc::flock` (0 on success) -/
  flockRc : Int
  /-- result of `get_eve_windows` -/
  enumRes : Except QueryErr (List EveWindow)
  /-- result of `get_active_window` -/
  activeRes : Except QueryErr Nat
  /-- whether the single cycle step (`cycle_forward`/`cycle_backward`)
  succeeds -/
  cycleOk : Bool

/-- One direct-mode cycle invocation (`main.rs` lines 80-115 and
125-160): open the lock file, returning `Ok` with no action on failure;
`flock` non-blocking, returning `Ok` with no action when the lock is
held; then enumerate (propagating errors with `?`), return `Ok` if no
window exists, sync with the active window when one is reported, and
perform one cycle step.  The cycle step itself lives in
`cycle_state.rs`, which is not part of the sources; it is abstracted to
one `cycleStep` action whose failure propagates, which is all the lock
claims observe. -/
def directCycle (env : DirectEnv) (dir : CycleDir) :
    Except QueryErr Unit × List DirectAct :=
  if !env.openOk then (.ok (), [])
  else if env.flockRc ≠ 0 then (.ok (), [])
  else
    match env.enumRes with
    | .error e => (.error e, [.enumerate])
    | .ok ws =>
      if ws.isEmpty then (.ok (), [.enumerate])
      else
        let res : Except QueryErr Unit :=
          if env.cycleOk then .ok () else .error ()
        (res, [.enumerate, .getActive, .cycleStep dir])

/-! ## Codec lemmas -/

theorem hexCharVal_hexDigitChar {d : Nat} (hd : d < 16) :
    hexCharVal (hexDigitChar d) = some d := by
  interval_cases d <;> decide

theorem parseRadixAux_append (dv : Char → Option Nat) (b : Nat)
    (l1 l2 : List Char) (acc : Nat) :
    parseRadixAux dv b acc (l1 ++ l2) =
      match parseRadixAux dv b acc l1 with
      | some a => parseRadixAux dv b a l2
      | none => none := by
  induction l1 generalizing acc with
  | nil => simp [parseRadixAux]
  | cons c rest ih =>
    simp only [List.cons_append, parseRadixAux]
    cases dv c with
    | none => rfl
    | some d => exact ih _

theorem parseRadixAux_hexDigits (fuel : Nat) :
    ∀ n acc, n ≤ fuel →
      parseRadixAux hexCharVal 16 acc ((hexDigitsAux fuel n).reverse) =
        some (acc * 16 ^ (hexDigitsAux fuel n).length + n) := by
  induction fuel with
  | zero =>
    intro n acc h
    have hn : n = 0 := Nat.le_zero.mp h
    subst hn
    simp [hexDigitsAux, parseRadixAux]
  | succ f ih =>
    intro n acc h
    cases n with
    | zero => simp [hexDigitsAux, parseRadixAux]
    | succ m =>
      have hdiv : (m + 1) / 16 ≤ f := by
        have := Nat.div_lt_self (Nat.succ_pos m) (by norm_num : 1 < 16)
        omega
      simp only [hexDigitsAux, List.reverse_cons]
      rw [parseRadixAux_append, ih ((m + 1) / 16) acc hdiv]
      simp only [parseRadixAux,
        hexCharVal_hexDigitChar (Nat.mod_lt _ (by norm_num : (0:Nat) < 16)),
        List.length_cons]
      congr 1
      have hr :
          16 * (acc * 16 ^ (hexDigitsAux f ((m + 1) / 16)).length + (m + 1) / 16) +
              (m + 1) % 16 =
            acc * 16 ^ ((hexDigitsAux f ((m + 1) / 16)).length + 1) +
              (16 * ((m + 1) / 16) + (m + 1) % 16) := by
        ring
      rw [hr, Nat.div_add_mod]

theorem natToHex_ne_nil (n : Nat) : natToHex n ≠ [] := by
  unfold natToHex
  split
  · simp
  · rename_i hn
    cases n with
    | zero => exact absurd rfl hn
    | succ m => simp [hexDigitsAux]

theorem parse_natToHex (n : Nat) :
    parseRadixAux hexCharVal 16 0 (natToHex n) = some n := by
  unfold natToHex
  split
  · rename_i hn
    subst hn
    rfl
  · have := parseRadixAux_hexDigits n n 0 le_rfl
    simpa using this

theorem fromStrRadix16U32_natToHex {n : Nat} (h : n < 2 ^ 32) :
    fromStrRadix16U32 (natToHex n) = some n := by
  unfold fromStrRadix16U32
  rw [if_neg (by simp [List.isEmpty_iff, natToHex_ne_nil n])]
  rw [parse_natToHex]
  simp only []
  rw [if_pos h]

theorem parseRadixAux_replicate_zero (k : Nat) (l : List Char) :
    parseRadixAux hexCharVal 16 0 (List.replicate k '0' ++ l) =
      parseRadixAux hexCharVal 16 0 l := by
  induction k with
  | zero => simp
  | succ m ih =>
    simp only [List.replicate_succ, List.cons_append, parseRadixAux, hexCharVal]
    simpa using ih

theorem isPrefixOf_append_self (l r : List Char) :
    l.isPrefixOf (l ++ r) = true := by
  induction l with
  | nil => simp [List.isPrefixOf]
  | cons c rest ih => simp [List.isPrefixOf, ih]

/-! ## Trim lemmas -/

theorem trimEveAux_of_not_pfx {t : List Char}
    (h : evePfx.isPrefixOf t = false) : ∀ fuel, trimEveAux fuel t = t := by
  intro fuel
  cases fuel <;> simp [trimEveAux, h]

theorem trimEve_append_of_not_pfx {t : List Char}
    (h : evePfx.isPrefixOf t = false) : trimEve (evePfx ++ t) = t := by
  show trimEveAux (evePfx ++ t).length (evePfx ++ t) = t
  have hlen : (evePfx ++ t).length = (5 + t.length) + 1 := by
    simp [evePfx, cs]
    omega
  rw [hlen]
  simp only [trimEveAux, isPrefixOf_append_self, if_true]
  have hdrop : (evePfx ++ t).drop evePfx.length = t := List.drop_left _ _
  rw [hdrop]
  exact trimEveAux_of_not_pfx h _

/-! ## Sway tree-walk lemmas -/

theorem Json.sizeOf_pos (j : Json) : 0 < sizeOf j := by
  cases j <;> simp_arith

theorem mem_flatMap_attach {α β : Type _} (l : List α) (f : α → List β)
    (b : β) :
    b ∈ l.attach.flatMap (fun x => f x.val) ↔ ∃ a ∈ l, b ∈ f a := by
  simp [List.mem_flatMap, List.mem_attach, Subtype.exists]

/-- `w` is reachable from `j` by descending through `nodes` and
`floating_nodes` children (reflexively). -/
inductive SwayDesc : Json → Json → Prop where
  | refl (j : Json) : SwayDesc j j
  | nodesStep {j x w : Json} (hx : x ∈ swayChildren j nodesKey)
      (h : SwayDesc x w) : SwayDesc j w
  | floatingStep {j x w : Json} (hx : x ∈ swayChildren j floatingNodesKey)
      (h : SwayDesc x w) : SwayDesc j w

theorem mem_swayExtract_self {j : Json} (hc : swayCollects j = true) :
    j ∈ swayExtract j := by
  rw [swayExtract.eq_def, if_pos hc]
  simp

theorem mem_swayExtract_of_nodes {j x w : Json}
    (hx : x ∈ swayChildren j nodesKey) (hw : w ∈ swayExtract x) :
    w ∈ swayExtract j := by
  rw [swayExtract.eq_def]
  refine List.mem_append.mpr (Or.inl (List.mem_append.mpr (Or.inr ?_)))
  exact (mem_flatMap_attach _ _ _).mpr ⟨x, hx, hw⟩

theorem mem_swayExtract_of_floating {j x w : Json}
    (hx : x ∈ swayChildren j floatingNodesKey) (hw : w ∈ swayExtract x) :
    w ∈ swayExtract j := by
  rw [swayExtract.eq_def]
  exact List.mem_append.mpr (Or.inr ((mem_flatMap_attach _ _ _).mpr ⟨x, hx, hw⟩))

theorem of_mem_swayExtract_aux (n : Nat) :
    ∀ (j : Json), sizeOf j ≤ n → ∀ w, w ∈ swayExtract j →
      SwayDesc j w ∧ swayCollects w = true := by
  induction n with
  | zero =>
    intro j hj
    exact absurd hj (by have := Json.sizeOf_pos j; omega)
  | succ n ih =>
    intro j hj w hw
    rw [swayExtract.eq_def] at hw
    rcases List.mem_append.mp hw with h1 | h2
    · rcases List.mem_append.mp h1 with hself | hnodes
      · by_cases hc : swayCollects j = true
        · rw [if_pos hc] at hself
          have := List.mem_singleton.mp hself
          subst this
          exact ⟨.refl _, hc⟩
        · rw [if_neg hc] at hself
          simp at hself
      · obtain ⟨x, hx, hwx⟩ := (mem_flatMap_attach _ _ _).mp hnodes
        have hlt := sizeOf_swayChildren hx
        obtain ⟨hd, hc⟩ := ih x (by omega) w hwx
        exact ⟨.nodesStep hx hd, hc⟩
    · obtain ⟨x, hx, hwx⟩ := (mem_flatMap_attach _ _ _).mp h2
      have hlt := sizeOf_swayChildren hx
      obtain ⟨hd, hc⟩ := ih x (by omega) w hwx
      exact ⟨.floatingStep hx hd, hc⟩

/-- Full characterization of the Sway tree walk: a node is in the
extraction result exactly when it is reachable through `nodes` /
`floating_nodes` edges and satisfies the collection test. -/
theorem mem_swayExtract_iff (j w : Json) :
    w ∈ swayExtract j ↔ SwayDesc j w ∧ swayCollects w = true := by
  constructor
  · exact of_mem_swayExtract_aux (sizeOf j) j le_rfl w
  · rintro ⟨hd, hc⟩
    induction hd with
    | refl => exact mem_swayExtract_self hc
    | nodesStep hx _ ih => exact mem_swayExtract_of_nodes hx (ih hc)
    | floatingStep hx _ ih => exact mem_swayExtract_of_floating hx (ih hc)

/-- The collection test, rewritten as the plain condition it computes:
type `"con"`/`"floating_con"`, and either a present non-null `app_id`,
or no `app_id` field at all together with a present non-null
`window_properties`. -/
theorem swayCollects_iff (j : Json) :
    swayCollects j = true ↔
      ((j.get typeKey).bind Json.asStr = some (cs "con") ∨
        (j.get typeKey).bind Json.asStr = some (cs "floating_con")) ∧
      ((∃ a, j.get appIdKey = some a ∧ a.isNull = false) ∨
        (j.get appIdKey = none ∧
          ∃ p, j.get windowPropsKey = some p ∧ p.isNull = false)) := by
  unfold swayCollects
  cases ht : (j.get typeKey).bind Json.asStr with
  | none => simp
  | some t =>
    by_cases htc : t = cs "con" ∨ t = cs "floating_con"
    · have hcond : (t = cs "con" || t = cs "floating_con") = true := by
        rcases htc with h | h <;> simp [h]
      simp only [hcond, if_true]
      cases ha : j.get appIdKey with
      | some appId =>
        simp only [Option.some.injEq]
        constructor
        · intro hnull
          exact ⟨by simpa using htc, Or.inl ⟨appId, rfl, by simpa using hnull⟩⟩
        · rintro ⟨-, h | ⟨hnone, -⟩⟩
          · obtain ⟨a, ha', hn⟩ := h
            cases ha'
            simpa using hn
          · exact absurd hnone (by simp)
      | none =>
        cases hw : j.get windowPropsKey with
        | some wp =>
          simp only [Option.some.injEq]
          constructor
          · intro hnull
            exact ⟨by simpa using htc,
              Or.inr ⟨by trivial, wp, by trivial, by simpa using hnull⟩⟩
          · rintro ⟨-, h | ⟨-, p, hp, hn⟩⟩
            · obtain ⟨a, ha', -⟩ := h
              exact Option.noConfusion ha'
            · cases hp
              simpa using hn
        | none =>
          simp
    · have hcond : (t = cs "con" || t = cs "floating_con") = false := by
        simp only [Bool.or_eq_false_iff, decide_eq_false_iff_not]
        constructor <;> (intro h; exact htc (by simp [h]))
      simp only [hcond, Bool.false_eq_true, if_false]
      constructor
      · intro h
        exact absurd h (by simp)
      · rintro ⟨h | h, -⟩
        · exact absurd (Or.inl (Option.some.inj h)) htc
        · exact absurd (Or.inr (Option.some.inj h)) htc

/-! ## Enumeration-filter characterizations -/

theorem kwinGetEveWindows_eq (ws : List (List Char × List Char)) :
    kwinGetEveWindows ws = ws.filterMap (fun p =>
      if titleQualifies p.2 = true ∧ kwinParseId p.1 ≠ 0 then
        some ⟨kwinParseId p.1, trimEve p.2⟩
      else none) := by
  induction ws with
  | nil => rfl
  | cons p rest ih =>
    obtain ⟨i, t⟩ := p
    simp only [kwinGetEveWindows, List.filterMap_cons]
    by_cases hq : titleQualifies t = true
    · by_cases hid : kwinParseId i = 0
      · rw [if_pos hq, if_neg (by simp [hid]), if_neg (by intro hc; exact hc.2 hid)]
        exact ih
      · rw [if_pos hq, if_pos hid, if_pos ⟨hq, hid⟩, ih]
    · rw [if_neg hq, if_neg (by intro hc; exact hq hc.1), ih]

theorem swayFilterEveWindows_eq (l : List Json) :
    swayFilterEveWindows l = l.filterMap (fun j =>
      match swayGetWindowTitle j, swayGetWindowId j with
      | some t, some id =>
        if titleQualifies t = true then some ⟨id, trimEve t⟩ else none
      | _, _ => none) := by
  induction l with
  | nil => rfl
  | cons j rest ih =>
    cases ht : swayGetWindowTitle j with
    | none => simp only [swayFilterEveWindows, ht, List.filterMap_cons]; exact ih
    | some t =>
      cases hid : swayGetWindowId j with
      | none =>
        simp only [swayFilterEveWindows, ht, hid, List.filterMap_cons]
        split <;> exact ih
      | some id =>
        simp only [swayFilterEveWindows, ht, hid, List.filterMap_cons]
        by_cases hq : titleQualifies t = true
        · rw [if_pos hq, if_pos hq, ih]
        · rw [if_neg hq, if_neg hq, ih]

theorem hyprGetEveWindows_eq (l : List Json) :
    hyprGetEveWindows l = l.filterMap (fun j =>
      match (j.get titleKey).bind Json.asStr,
            (j.get addressKey).bind Json.asStr with
      | some t, some a =>
        if titleQualifies t = true then some ⟨hyprParseAddr a, trimEve t⟩
        else none
      | _, _ => none) := by
  induction l with
  | nil => rfl
  | cons j rest ih =>
    cases ht : (j.get titleKey).bind Json.asStr with
    | none => simp only [hyprGetEveWindows, ht, List.filterMap_cons]; exact ih
    | some t =>
      cases ha : (j.get addressKey).bind Json.asStr with
      | none =>
        simp only [hyprGetEveWindows, ht, ha, List.filterMap_cons]
        split <;> exact ih
      | some a =>
        simp only [hyprGetEveWindows, ht, ha, List.filterMap_cons]
        by_cases hq : titleQualifies t = true
        · rw [if_pos hq, if_pos hq, ih]
        · rw [if_neg hq, if_neg hq, ih]

/-! ## Stack-loop lemmas -/

theorem i32WrapOfU32_of_lt {n : Nat} (h : n < 2 ^ 31) :
    i32WrapOfU32 n = n := by
  unfold i32WrapOfU32
  rw [Nat.mod_eq_of_lt (by omega), if_pos h]

theorem kwinStackLoop_no_spawnErr {env : Nat → ExecRes}
    (henv : ∀ k, env k ≠ .spawnErr) (x y : Int) (w h : Nat) :
    ∀ (k : Nat) (ws : List EveWindow),
      kwinStackLoop env x y w h k ws =
        (ws.map fun win => .kwinMoveResize (kwinEncodeId win.id) x y w h,
          false) := by
  intro k ws
  induction ws generalizing k with
  | nil => rfl
  | cons win rest ih =>
    simp only [kwinStackLoop]
    cases hek : env k with
    | spawnErr => exact absurd hek (henv k)
    | ran ok => simp [ih (k + 1)]

theorem swayStackLoop_no_spawnErr {env : Nat → ExecRes}
    (henv : ∀ k, env k ≠ .spawnErr) (x y w h : Int) :
    ∀ (k : Nat) (ws : List EveWindow),
      swayStackLoop env x y w h k ws =
        (ws.flatMap fun win =>
          [.swayFloatEnable win.id, .swayMove win.id x y,
            .swayResize win.id w h], false) := by
  intro k ws
  induction ws generalizing k with
  | nil => rfl
  | cons win rest ih =>
    simp only [swayStackLoop]
    cases he1 : env k with
    | spawnErr => exact absurd he1 (henv k)
    | ran o1 =>
      cases he2 : env (k + 1) with
      | spawnErr => exact absurd he2 (henv (k + 1))
      | ran o2 =>
        cases he3 : env (k + 2) with
        | spawnErr => exact absurd he3 (henv (k + 2))
        | ran o3 => simp [ih (k + 3)]

theorem hyprStackLoop_no_spawnErr {env : Nat → ExecRes}
    (henv : ∀ k, env k ≠ .spawnErr) (x y w h : Int) :
    ∀ (k : Nat) (ws : List EveWindow),
      hyprStackLoop env x y w h k ws =
        (ws.flatMap fun win =>
          [.hyprToggleFloating (hyprEncodeAddr win.id),
            .hyprMove (hyprEncodeAddr win.id) x y,
            .hyprResize (hyprEncodeAddr win.id) w h], false) := by
  intro k ws
  induction ws generalizing k with
  | nil => rfl
  | cons win rest ih =>
    simp only [hyprStackLoop]
    cases he1 : env k with
    | spawnErr => exact absurd he1 (henv k)
    | ran o1 =>
      cases he2 : env (k + 1) with
      | spawnErr => exact absurd he2 (henv (k + 1))
      | ran o2 =>
        cases he3 : env (k + 2) with
        | spawnErr => exact absurd he3 (henv (k + 2))
        | ran o3 => simp [ih (k + 3)]

/-! ## Membership characterizations of the three enumerations -/

theorem mem_kwinGetEveWindows_iff (ws : List (List Char × List Char))
    (w : EveWindow) :
    w ∈ kwinGetEveWindows ws ↔
      ∃ p ∈ ws, titleQualifies p.2 = true ∧ kwinParseId p.1 ≠ 0 ∧
        w = ⟨kwinParseId p.1, trimEve p.2⟩ := by
  rw [kwinGetEveWindows_eq, List.mem_filterMap]
  constructor
  · rintro ⟨p, hp, hf⟩
    split at hf
    · rename_i hc
      exact ⟨p, hp, hc.1, hc.2, (Option.some.inj hf).symm⟩
    · exact Option.noConfusion hf
  · rintro ⟨p, hp, h1, h2, rfl⟩
    exact ⟨p, hp, by rw [if_pos ⟨h1, h2⟩]⟩

theorem mem_swayGetEveWindows_iff (tree : Json) (w : EveWindow) :
    w ∈ swayGetEveWindows tree ↔
      ∃ j ∈ swayExtract tree, ∃ t, swayGetWindowTitle j = some t ∧
        titleQualifies t = true ∧
        ∃ id, swayGetWindowId j = some id ∧ w = ⟨id, trimEve t⟩ := by
  show w ∈ swayFilterEveWindows (swayExtract tree) ↔ _
  rw [swayFilterEveWindows_eq, List.mem_filterMap]
  constructor
  · rintro ⟨j, hj, hf⟩
    cases ht : swayGetWindowTitle j with
    | none => rw [ht] at hf; exact Option.noConfusion hf
    | some t =>
      cases hid : swayGetWindowId j with
      | none => rw [ht, hid] at hf; exact Option.noConfusion hf
      | some id =>
        rw [ht, hid] at hf
        simp only [] at hf
        split at hf
        · rename_i hq
          exact ⟨j, hj, t, ht, hq, id, hid, (Option.some.inj hf).symm⟩
        · exact Option.noConfusion hf
  · rintro ⟨j, hj, t, ht, hq, id, hid, rfl⟩
    refine ⟨j, hj, ?_⟩
    rw [ht, hid]
    simp [hq]

theorem mem_hyprGetEveWindows_iff (l : List Json) (w : EveWindow) :
    w ∈ hyprGetEveWindows l ↔
      ∃ j ∈ l, ∃ t, (j.get titleKey).bind Json.asStr = some t ∧
        titleQualifies t = true ∧
        ∃ a, (j.get addressKey).bind Json.asStr = some a ∧
          w = ⟨hyprParseAddr a, trimEve t⟩ := by
  rw [hyprGetEveWindows_eq, List.mem_filterMap]
  constructor
  · rintro ⟨j, hj, hf⟩
    cases ht : (j.get titleKey).bind Json.asStr with
    | none => rw [ht] at hf; exact Option.noConfusion hf
    | some t =>
      cases ha : (j.get addressKey).bind Json.asStr with
      | none => rw [ht, ha] at hf; exact Option.noConfusion hf
      | some a =>
        rw [ht, ha] at hf
        simp only [] at hf
        split at hf
        · rename_i hq
          exact ⟨j, hj, t, ht, hq, a, ha, (Option.some.inj hf).symm⟩
        · exact Option.noConfusion hf
  · rintro ⟨j, hj, t, ht, hq, a, ha, rfl⟩
    refine ⟨j, hj, ?_⟩
    rw [ht, ha]
    simp [hq]

/-! ## Focused-window scan lemmas -/

theorem swayFindFocused_some {l : List Json} {v : Nat}
    (h : swayFindFocused l = some v) :
    ∃ j ∈ l, (j.get focusedKey).bind Json.asBool = some true ∧
      swayGetWindowId j = some v := by
  induction l with
  | nil => exact Option.noConfusion h
  | cons j rest ih =>
    simp only [swayFindFocused] at h
    cases hb : (j.get focusedKey).bind Json.asBool with
    | none =>
      rw [hb] at h
      obtain ⟨j', hj', hp⟩ := ih h
      exact ⟨j', List.mem_cons_of_mem _ hj', hp⟩
    | some b =>
      cases b with
      | false =>
        rw [hb] at h
        obtain ⟨j', hj', hp⟩ := ih h
        exact ⟨j', List.mem_cons_of_mem _ hj', hp⟩
      | true =>
        rw [hb] at h
        cases hid : swayGetWindowId j with
        | none =>
          rw [hid] at h
          obtain ⟨j', hj', hp⟩ := ih h
          exact ⟨j', List.mem_cons_of_mem _ hj', hp⟩
        | some id =>
          rw [hid] at h
          exact ⟨j, List.mem_cons_self _ _, hb, by rw [hid, Option.some.inj h]⟩

theorem swayFindFocused_none {l : List Json}
    (h : ∀ j ∈ l, (j.get focusedKey).bind Json.asBool = some true →
      swayGetWindowId j = none) :
    swayFindFocused l = none := by
  induction l with
  | nil => rfl
  | cons j rest ih =>
    simp only [swayFindFocused]
    have hrest := ih fun j' hj' => h j' (List.mem_cons_of_mem _ hj')
    cases hb : (j.get focusedKey).bind Json.asBool with
    | none => exact hrest
    | some b =>
      cases b with
      | false => exact hrest
      | true =>
        rw [h j (List.mem_cons_self _ _) hb]
        exact hrest

/-! ## Claim C1 -/

/-- Claim C1, counterexample: in the Hyprland backend a window whose
address fails to decode (no `0x` stem) resolves to the reserved id 0 and
is nevertheless included in the `get_eve_windows` result, contradicting
the claim that every backend discards id-0 windows at enumeration
time. -/
theorem c1_counterexample :
    hyprGetEveWindows
      [Json.obj [(titleKey, Json.str (cs "EVE - Alpha")),
                 (addressKey, Json.str (cs "deadbeef"))]] =
      [{ id := 0, title := cs "Alpha" }] := by decide

/-- Claim C1 as amended: KWin's `get_eve_windows` never returns a window
with id 0 (a failed decode resolves to 0 and is discarded); Sway's
returns only values actually decoded from the node's `id` field
(truncated `mod 2^32`, so 0 is possible); Hyprland's stores the address
decode verbatim — including the reserved 0 of a failed decode — and
performs no discard. -/
theorem c1_amended :
    (∀ ws (w : EveWindow), w ∈ kwinGetEveWindows ws → w.id ≠ 0) ∧
    (∀ tree (w : EveWindow), w ∈ swayGetEveWindows tree →
      ∃ j ∈ swayExtract tree, swayGetWindowId j = some w.id) ∧
    (∀ l (w : EveWindow), w ∈ hyprGetEveWindows l →
      ∃ j ∈ l, ∃ a, (j.get addressKey).bind Json.asStr = some a ∧
        w.id = hyprParseAddr a) := by
  refine ⟨?_, ?_, ?_⟩
  · intro ws w h
    obtain ⟨p, hp, hq, hid, rfl⟩ := (mem_kwinGetEveWindows_iff ws w).mp h
    exact hid
  · intro tree w h
    obtain ⟨j, hj, t, ht, hq, id, hid, rfl⟩ :=
      (mem_swayGetEveWindows_iff tree w).mp h
    exact ⟨j, hj, hid⟩
  · intro l w h
    obtain ⟨j, hj, t, ht, hq, a, ha, rfl⟩ :=
      (mem_hyprGetEveWindows_iff l w).mp h
    exact ⟨j, hj, a, ha, rfl⟩

/-- Claim C1, witness: the amended theorem applied to a concrete KWin
enumeration. -/
theorem c1_witness :
    ({ id := 0x06e00008, title := cs "Homeless Addict" } : EveWindow).id ≠ 0 :=
  c1_amended.1 [(cs "0x06e00008", cs "EVE - Homeless Addict")] _ (by decide)

/-! ## Claim C2 -/

/-- Claim C2: in direct-mode cycling (both fallback arms), when the lock
file cannot be opened or the non-blocking `flock` reports the lock held,
the invocation returns success and performs no action at all: no
enumeration, no active-window sync, no cycle step. -/
theorem c2_lock_skip (env : DirectEnv) (dir : CycleDir)
    (h : env.openOk = false ∨ env.flockRc ≠ 0) :
    directCycle env dir = (.ok (), []) := by
  rcases h with h | h
  · simp [directCycle, h]
  · simp [directCycle, h]

/-- Claim C2, witness: the theorem applied to an invocation whose lock
file cannot even be opened. -/
theorem c2_witness :
    directCycle
      { openOk := false, flockRc := 0, enumRes := .ok [],
        activeRes := .error (), cycleOk := true } .forward = (.ok (), []) :=
  c2_lock_skip _ .forward (Or.inl rfl)

/-! ## Claim C3 -/

/-- Claim C3, counterexample: a KWin window whose title qualifies under
the title filter but whose identifier decodes to 0 is excluded, so title
qualification alone is not equivalent to inclusion. -/
theorem c3_counterexample :
    titleQualifies (cs "EVE - Pilot One") = true ∧
      kwinGetEveWindows [(cs "0x0", cs "EVE - Pilot One")] = [] := by decide

/-- Claim C3 as amended: a window is included in `get_eve_windows` iff
its title qualifies (starts with `"EVE - "`, no `"Launcher"` substring)
AND its native identifier is usable — KWin: the decoded id is nonzero;
Sway: the node carries a readable string `name` and integer `id`;
Hyprland: the client carries a readable string `title` and `address`. -/
theorem c3_amended :
    (∀ ws (w : EveWindow), w ∈ kwinGetEveWindows ws ↔
      ∃ p ∈ ws, titleQualifies p.2 = true ∧ kwinParseId p.1 ≠ 0 ∧
        w = ⟨kwinParseId p.1, trimEve p.2⟩) ∧
    (∀ tree (w : EveWindow), w ∈ swayGetEveWindows tree ↔
      ∃ j ∈ swayExtract tree, ∃ t, swayGetWindowTitle j = some t ∧
        titleQualifies t = true ∧
        ∃ id, swayGetWindowId j = some id ∧ w = ⟨id, trimEve t⟩) ∧
    (∀ l (w : EveWindow), w ∈ hyprGetEveWindows l ↔
      ∃ j ∈ l, ∃ t, (j.get titleKey).bind Json.asStr = some t ∧
        titleQualifies t = true ∧
        ∃ a, (j.get addressKey).bind Json.asStr = some a ∧
          w = ⟨hyprParseAddr a, trimEve t⟩) :=
  ⟨mem_kwinGetEveWindows_iff, mem_swayGetEveWindows_iff,
    mem_hyprGetEveWindows_iff⟩

/-- Claim C3, witness: the amended characterization applied to a
concrete KWin enumeration containing one qualifying window. -/
theorem c3_witness :
    ({ id := 1, title := cs "Pilot One" } : EveWindow) ∈
      kwinGetEveWindows [(cs "0x1", cs "EVE - Pilot One")] :=
  (c3_amended.1 [(cs "0x1", cs "EVE - Pilot One")] _).mpr
    ⟨(cs "0x1", cs "EVE - Pilot One"), by decide, by decide, by decide,
      by decide⟩

/-! ## Claim C4 -/

/-- Claim C4, counterexample: a `con` node with a present-but-null
`app_id` and a non-null `window_properties` is NOT collected by the Sway
tree walk (the `else if` on `window_properties` is skipped whenever an
`app_id` field exists, even a null one), contradicting the claim that
such a node is collected. -/
theorem c4_counterexample :
    swayExtract
      (Json.obj [(typeKey, Json.str (cs "con")),
                 (appIdKey, Json.null),
                 (windowPropsKey, Json.obj [])]) = [] := by
  rw [swayExtract.eq_def]
  rfl

/-- Claim C4 as amended: the Sway tree walk descends into both `nodes`
and `floating_nodes` children, and collects exactly the reachable nodes
whose type is `"con"` or `"floating_con"` and that either carry a
non-null `app_id`, or carry no `app_id` field at all together with a
non-null `window_properties`; a node with a null `app_id` field is never
collected, whatever its `window_properties`. -/
theorem c4_amended :
    (∀ j w, w ∈ swayExtract j ↔ SwayDesc j w ∧ swayCollects w = true) ∧
    (∀ j, swayCollects j = true ↔
      ((j.get typeKey).bind Json.asStr = some (cs "con") ∨
        (j.get typeKey).bind Json.asStr = some (cs "floating_con")) ∧
      ((∃ a, j.get appIdKey = some a ∧ a.isNull = false) ∨
        (j.get appIdKey = none ∧
          ∃ p, j.get windowPropsKey = some p ∧ p.isNull = false))) :=
  ⟨mem_swayExtract_iff, swayCollects_iff⟩

/-- Claim C4, witness: the amended characterization applied to a
concrete collectible node. -/
theorem c4_witness :
    Json.obj [(typeKey, Json.str (cs "con")),
              (appIdKey, Json.str (cs "eve"))] ∈
      swayExtract (Json.obj [(typeKey, Json.str (cs "con")),
                             (appIdKey, Json.str (cs "eve"))]) :=
  (c4_amended.1 _ _).mpr ⟨.refl _, by decide⟩

/-! ## Claim C5 -/

/-- Claim C5, counterexample: for `eve_width = 2^31` (a legal `u32`
configuration allowed by the claim's "every configuration") Sway's
`stack_windows` issues a resize carrying the `as i32`-wrapped value
`-2^31`, not `width = eve_width`, so the claimed rectangle equality
fails. -/
theorem c5_counterexample :
    swayStackWindows (fun _ => ExecRes.ran true)
      ([{ id := 5, title := cs "A" }] : List EveWindow)
      ⟨4294967295, 1080, 0, 2147483648, 1080⟩ =
      some ([.swayFloatEnable 5, .swayMove 5 1073741823 0,
        .swayResize 5 (-2147483648) 1080], false) ∧
    (-2147483648 : Int) ≠ ((2147483648 : Nat) : Int) := by
  constructor
  · decide
  · decide

/-- Claim C5 as amended: under the geometry precondition (and with every
command spawnable), every backend's `stack_windows` issues, for each
window of its input list in order, control calls that all target one
shared rectangle; Sway and Hyprland issue the floating step for each
window before that window's move and resize calls.  The rectangle is the
`as i32` image of `x = (display_width - eve_width) / 2`, `y = 0`,
`width = eve_width`, `height = display_height - panel_height`: KWin
passes width and height unsigned and only casts `x`; Sway and Hyprland
also cast width and height, so operands below `2^31` (the final
conjunct) reach the compositor unchanged while larger ones wrap to
negatives. -/
theorem c5_amended (env : Nat → ExecRes) (c : Config)
    (ws : List EveWindow)
    (h1 : c.eve_width ≤ c.display_width)
    (h2 : c.panel_height ≤ c.display_height)
    (henv : ∀ k, env k ≠ .spawnErr) :
    kwinStackWindows env ws c =
      some (ws.map fun win =>
        .kwinMoveResize (kwinEncodeId win.id)
          (i32WrapOfU32 ((c.display_width - c.eve_width) / 2)) 0
          c.eve_width (c.display_height - c.panel_height), false) ∧
    swayStackWindows env ws c =
      some (ws.flatMap fun win =>
        [.swayFloatEnable win.id,
          .swayMove win.id
            (i32WrapOfU32 ((c.display_width - c.eve_width) / 2)) 0,
          .swayResize win.id (i32WrapOfU32 c.eve_width)
            (i32WrapOfU32 (c.display_height - c.panel_height))], false) ∧
    hyprStackWindows env ws c =
      some (ws.flatMap fun win =>
        [.hyprToggleFloating (hyprEncodeAddr win.id),
          .hyprMove (hyprEncodeAddr win.id)
            (i32WrapOfU32 ((c.display_width - c.eve_width) / 2)) 0,
          .hyprResize (hyprEncodeAddr win.id) (i32WrapOfU32 c.eve_width)
            (i32WrapOfU32 (c.display_height - c.panel_height))], false) ∧
    (∀ n, n < 2 ^ 31 → i32WrapOfU32 n = n) := by
  have hcs1 : checkedSub c.display_width c.eve_width =
      some (c.display_width - c.eve_width) := if_pos h1
  have hcs2 : checkedSub c.display_height c.panel_height =
      some (c.display_height - c.panel_height) := if_pos h2
  refine ⟨?_, ?_, ?_, fun n hn => i32WrapOfU32_of_lt hn⟩
  · simp only [kwinStackWindows, hcs1, hcs2]
    rw [kwinStackLoop_no_spawnErr henv]
  · simp only [swayStackWindows, hcs1, hcs2]
    rw [swayStackLoop_no_spawnErr henv]
  · simp only [hyprStackWindows, hcs1, hcs2]
    rw [hyprStackLoop_no_spawnErr henv]

/-- Claim C5, witness: the amended geometry theorem applied to a
concrete configuration, window list and environment. -/
theorem c5_witness :
    kwinStackWindows (fun _ => ExecRes.ran true)
      ([{ id := 5, title := cs "A" }] : List EveWindow) cfgOk =
      some (([{ id := 5, title := cs "A" }] : List EveWindow).map fun win =>
        .kwinMoveResize (kwinEncodeId win.id)
          (i32WrapOfU32 ((cfgOk.display_width - cfgOk.eve_width) / 2)) 0
          cfgOk.eve_width
          (cfgOk.display_height - cfgOk.panel_height), false) :=
  (c5_amended (fun _ => ExecRes.ran true) cfgOk
    [{ id := 5, title := cs "A" }] (by decide) (by decide)
    (fun k => by simp)).1

/-! ## Claim C6 -/

/-- Claim C6: in every backend's `stack_windows`, the attempted
move/resize calls do not depend on the success or failure reported by
any individual window's control call — two environments in which every
command spawns (whatever exit statuses they report) produce identical
results, so a failure reported for one window never prevents the
attempts for the remaining windows. -/
theorem c6_independent_attempts (env env' : Nat → ExecRes) (c : Config)
    (ws : List EveWindow)
    (h : ∀ k, env k ≠ .spawnErr) (h' : ∀ k, env' k ≠ .spawnErr) :
    kwinStackWindows env ws c = kwinStackWindows env' ws c ∧
    swayStackWindows env ws c = swayStackWindows env' ws c ∧
    hyprStackWindows env ws c = hyprStackWindows env' ws c := by
  refine ⟨?_, ?_, ?_⟩
  · cases hcs1 : checkedSub c.display_width c.eve_width with
    | none => simp only [kwinStackWindows, hcs1]
    | some dx =>
      cases hcs2 : checkedSub c.display_height c.panel_height with
      | none => simp only [kwinStackWindows, hcs1, hcs2]
      | some dh =>
        simp only [kwinStackWindows, hcs1, hcs2]
        rw [kwinStackLoop_no_spawnErr h, kwinStackLoop_no_spawnErr h']
  · cases hcs1 : checkedSub c.display_width c.eve_width with
    | none => simp only [swayStackWindows, hcs1]
    | some dx =>
      cases hcs2 : checkedSub c.display_height c.panel_height with
      | none => simp only [swayStackWindows, hcs1, hcs2]
      | some dh =>
        simp only [swayStackWindows, hcs1, hcs2]
        rw [swayStackLoop_no_spawnErr h, swayStackLoop_no_spawnErr h']
  · cases hcs1 : checkedSub c.display_width c.eve_width with
    | none => simp only [hyprStackWindows, hcs1]
    | some dx =>
      cases hcs2 : checkedSub c.display_height c.panel_height with
      | none => simp only [hyprStackWindows, hcs1, hcs2]
      | some dh =>
        simp only [hyprStackWindows, hcs1, hcs2]
        rw [hyprStackLoop_no_spawnErr h, hyprStackLoop_no_spawnErr h']

/-- Claim C6, witness: the independence theorem applied to two concrete
environments, one reporting success for every call and one reporting
failure for every call. -/
theorem c6_witness :
    kwinStackWindows (fun _ => ExecRes.ran true)
      ([{ id := 5, title := cs "A" }] : List EveWindow)
      { display_width := 1920, display_height := 1080, panel_height := 40,
        eve_width := 1000, eve_height := 1080 } =
    kwinStackWindows (fun _ => ExecRes.ran false)
      ([{ id := 5, title := cs "A" }] : List EveWindow)
      { display_width := 1920, display_height := 1080, panel_height := 40,
        eve_width := 1000, eve_height := 1080 } :=
  (c6_independent_attempts (fun _ => ExecRes.ran true)
    (fun _ => ExecRes.ran false)
    { display_width := 1920, display_height := 1080, panel_height := 40,
      eve_width := 1000, eve_height := 1080 }
    [{ id := 5, title := cs "A" }]
    (fun k => by simp) (fun k => by simp)).1

/-! ## Claim C7 -/

/-- Claim C7, counterexample: a window titled `"EVE - "` followed by
`T = "EVE - Foo"` is stored with title `"Foo"`, not with the
strip-once remainder `T` — `trim_start_matches` strips the prefix
repeatedly. -/
theorem c7_counterexample :
    (kwinGetEveWindows [(cs "0x1", evePfx ++ cs "EVE - Foo")]).map
        (fun w => w.title) = [cs "Foo"] ∧
      cs "Foo" ≠ cs "EVE - Foo" := by decide

/-- Claim C7 as amended: in every backend the stored title is the
original title with ALL leading copies of `"EVE - "` removed
(`trim_start_matches` semantics); this coincides with the strip-once
remainder exactly when that remainder does not itself start with
`"EVE - "`. -/
theorem c7_amended :
    (∀ t, evePfx.isPrefixOf t = false → trimEve (evePfx ++ t) = t) ∧
    (∀ ws (w : EveWindow), w ∈ kwinGetEveWindows ws →
      ∃ p ∈ ws, w.title = trimEve p.2) ∧
    (∀ tree (w : EveWindow), w ∈ swayGetEveWindows tree →
      ∃ j ∈ swayExtract tree, ∃ t, swayGetWindowTitle j = some t ∧
        w.title = trimEve t) ∧
    (∀ l (w : EveWindow), w ∈ hyprGetEveWindows l →
      ∃ j ∈ l, ∃ t, (j.get titleKey).bind Json.asStr = some t ∧
        w.title = trimEve t) := by
  refine ⟨fun t ht => trimEve_append_of_not_pfx ht, ?_, ?_, ?_⟩
  · intro ws w h
    obtain ⟨p, hp, hq, hid, rfl⟩ := (mem_kwinGetEveWindows_iff ws w).mp h
    exact ⟨p, hp, rfl⟩
  · intro tree w h
    obtain ⟨j, hj, t, ht, hq, id, hid, rfl⟩ :=
      (mem_swayGetEveWindows_iff tree w).mp h
    exact ⟨j, hj, t, ht, rfl⟩
  · intro l w h
    obtain ⟨j, hj, t, ht, hq, a, ha, rfl⟩ :=
      (mem_hyprGetEveWindows_iff l w).mp h
    exact ⟨j, hj, t, ht, rfl⟩

/-- Claim C7, witness: the amended theorem's trim characterization
applied to a remainder that does not restart with the prefix. -/
theorem c7_witness : trimEve (evePfx ++ cs "Pilot One") = cs "Pilot One" :=
  c7_amended.1 (cs "Pilot One") (by decide)

/-! ## Claim C8 -/

/-- Claim C8: id codec round-trip — for every `u32` value, encoding it
in KWin's `0x` + zero-padded lowercase hex form and decoding with KWin's
parser yields the value back, and likewise for Hyprland's bare-width
`0x` hex form and parser. -/
theorem c8_id_codec_roundtrip (n : Nat) (h : n < 2 ^ 32) :
    kwinParseId (kwinEncodeId n) = n ∧ hyprParseAddr (hyprEncodeAddr n) = n := by
  have hne : ∀ (l : List Char), (l ++ natToHex n).isEmpty ≠ true := by
    intro l
    simp [List.isEmpty_iff, natToHex_ne_nil n]
  have hcore : ∀ k,
      fromStrRadix16U32 (List.replicate k '0' ++ natToHex n) = some n := by
    intro k
    unfold fromStrRadix16U32
    rw [if_neg (hne _)]
    simp only [parseRadixAux_replicate_zero, parse_natToHex]
    rw [if_pos h]
  constructor
  · unfold kwinParseId kwinEncodeId
    rw [List.append_assoc]
    rw [if_pos (isPrefixOf_append_self _ _)]
    have hdrop :
        (cs "0x" ++ (List.replicate (8 - (natToHex n).length) '0' ++
          natToHex n)).drop 2 =
          List.replicate (8 - (natToHex n).length) '0' ++ natToHex n := rfl
    rw [hdrop, hcore]
    rfl
  · unfold hyprParseAddr hyprEncodeAddr
    rw [if_pos (isPrefixOf_append_self _ _)]
    have hdrop : (cs "0x" ++ natToHex n).drop 2 = natToHex n := rfl
    rw [hdrop, fromStrRadix16U32_natToHex h]
    rfl

/-- Claim C8, witness: the round-trip theorem applied to the concrete
canonical id `0x06e00008`. -/
theorem c8_witness :
    kwinParseId (kwinEncodeId 0x06e00008) = 0x06e00008 ∧
      hyprParseAddr (hyprEncodeAddr 0x06e00008) = 0x06e00008 :=
  c8_id_codec_roundtrip 0x06e00008 (by norm_num)

/-! ## Claim C9 -/

/-- Claim C9, counterexample: Hyprland's `get_active_window` returns a
SUCCESS carrying the reserved id 0 — not an error — when the reported
active window's address fails to decode, contradicting the claim that a
non-determinable focus is always reported as an error and that no
success ever carries 0. -/
theorem c9_counterexample :
    hyprGetActiveWindow (Json.obj [(addressKey, Json.str (cs "zz"))]) =
      .ok 0 := rfl

/-- Claim C9 as amended: KWin's `get_active_window` succeeds exactly
when the trimmed xdotool output parses as a `u32`; Sway's succeeds only
with the id of an extracted focused candidate and errors whenever no
focused candidate has a readable id; Hyprland's returns `Ok` of the
address decode — possibly the reserved 0 — whenever an `address` string
field is present, and errors only when it is absent. -/
theorem c9_amended :
    (∀ s v, kwinGetActiveWindow s = .ok v ↔ parseU32 (rustTrim s) = some v) ∧
    (∀ tree v, swayGetActiveWindow tree = .ok v →
      ∃ j ∈ swayExtract tree,
        (j.get focusedKey).bind Json.asBool = some true ∧
          swayGetWindowId j = some v) ∧
    (∀ tree, (∀ j ∈ swayExtract tree,
        (j.get focusedKey).bind Json.asBool = some true →
          swayGetWindowId j = none) →
      swayGetActiveWindow tree = .error ()) ∧
    (∀ j a, (j.get addressKey).bind Json.asStr = some a →
      hyprGetActiveWindow j = .ok (hyprParseAddr a)) ∧
    (∀ j, (j.get addressKey).bind Json.asStr = none →
      hyprGetActiveWindow j = .error ()) := by
  refine ⟨?_, ?_, ?_, ?_, ?_⟩
  · intro s v
    unfold kwinGetActiveWindow
    cases hp : parseU32 (rustTrim s) with
    | none => simp
    | some id => simp
  · intro tree v h
    unfold swayGetActiveWindow at h
    cases hf : swayFindFocused (swayExtract tree) with
    | none => rw [hf] at h; exact Except.noConfusion h
    | some id =>
      rw [hf] at h
      obtain ⟨j, hj, hfoc, hid⟩ := swayFindFocused_some hf
      exact ⟨j, hj, hfoc, by rw [hid]; exact congrArg some (Except.ok.inj h)⟩
  · intro tree h
    unfold swayGetActiveWindow
    rw [swayFindFocused_none h]
  · intro j a ha
    unfold hyprGetActiveWindow
    rw [ha]
  · intro j ha
    unfold hyprGetActiveWindow
    rw [ha]

/-- Claim C9, witness: the amended theorem applied to a concrete
Hyprland report with no address field. -/
theorem c9_witness : hyprGetActiveWindow Json.null = .error () :=
  c9_amended.2.2.2.2 Json.null rfl

/-! ## Claim C10 -/

/-- Claim C10: the unsigned geometry subtractions are panic-free exactly
under `eve_width ≤ display_width` and `panel_height ≤ display_height`:
under the precondition `Config::eve_x`, `Config::eve_height_adjusted`
and all three backends' `stack_windows` compute (checked subtraction
succeeds); when either inequality fails, the corresponding subtraction
underflows (`none` = checked-arithmetic panic), taking every backend's
`stack_windows` down with it before any command is issued. -/
theorem c10_panic_freedom (c : Config) (env : Nat → ExecRes)
    (ws : List EveWindow) :
    ((c.eve_width ≤ c.display_width ∧ c.panel_height ≤ c.display_height) →
      (Config.eve_x c).isSome = true ∧
      (Config.eve_height_adjusted c).isSome = true ∧
      (kwinStackWindows env ws c).isSome = true ∧
      (swayStackWindows env ws c).isSome = true ∧
      (hyprStackWindows env ws c).isSome = true) ∧
    (c.display_width < c.eve_width →
      Config.eve_x c = none ∧ kwinStackWindows env ws c = none ∧
      swayStackWindows env ws c = none ∧ hyprStackWindows env ws c = none) ∧
    (c.display_height < c.panel_height →
      Config.eve_height_adjusted c = none ∧
      kwinStackWindows env ws c = none ∧
      swayStackWindows env ws c = none ∧
      hyprStackWindows env ws c = none) := by
  refine ⟨?_, ?_, ?_⟩
  · rintro ⟨h1, h2⟩
    have hcs1 : checkedSub c.display_width c.eve_width =
        some (c.display_width - c.eve_width) := if_pos h1
    have hcs2 : checkedSub c.display_height c.panel_height =
        some (c.display_height - c.panel_height) := if_pos h2
    refine ⟨?_, ?_, ?_, ?_, ?_⟩ <;>
      simp [Config.eve_x, Config.eve_height_adjusted, kwinStackWindows,
        swayStackWindows, hyprStackWindows, hcs1, hcs2]
  · intro hlt
    have hcs1 : checkedSub c.display_width c.eve_width = none :=
      if_neg (by omega)
    refine ⟨?_, ?_, ?_, ?_⟩ <;>
      simp [Config.eve_x, kwinStackWindows, swayStackWindows,
        hyprStackWindows, hcs1]
  · intro hlt
    have hcs2 : checkedSub c.display_height c.panel_height = none :=
      if_neg (by omega)
    refine ⟨by simp [Config.eve_height_adjusted, hcs2], ?_, ?_, ?_⟩ <;>
      (cases hcs1 : checkedSub c.display_width c.eve_width with
       | none => simp [kwinStackWindows, swayStackWindows,
           hyprStackWindows, hcs1]
       | some dx => simp [kwinStackWindows, swayStackWindows,
           hyprStackWindows, hcs1, hcs2])

/-- Claim C10, witness: the theorem applied to one configuration
satisfying the precondition and one violating it. -/
theorem c10_witness :
    (Config.eve_x cfgOk).isSome = true ∧ Config.eve_x cfgWide = none :=
  ⟨((c10_panic_freedom cfgOk (fun _ => ExecRes.ran true) []).1
      ⟨by decide, by decide⟩).1,
   ((c10_panic_freedom cfgWide (fun _ => ExecRes.ran true) []).2.1
      (by decide)).1⟩

end Nicotine
